import Mathlib

/-
Verification development for the globwatch repository.

The repository has two parts:
  * package pattern: a glob-pattern compiler (New) and a backtracking
    matcher (match) with support for literals, separators, the wildcards
    ? and * , the directory wildcard ** and character groups, plus a
    directory enumerator (GlobFS).
  * package globwatch: a polling watcher that seeds a path-to-modtime
    mapping (determineInitialState) and on each tick diffs a fresh
    enumeration against the mapping (detectChanges), emitting Created,
    Modified and Deleted events and reporting errors.

Strings are embedded as lists of Unicode code points (Lean Char), which
mirrors the Go code's rune-by-rune processing via utf8.DecodeRuneInString.
Go maps are embedded as association lists whose update preserves entry
order, and the unspecified Go map iteration order is fixed to list order.
Loops that are not structurally recursive carry an explicit fuel argument;
the wrappers supply fuel that strictly dominates the loop variant, so the
out-of-fuel branch is never taken on the wrappers.
-/

namespace pattern

/-- Path separator used in patterns, always a forward slash. -/
def Separator : Char := '/'

/-- The single non-separator character wildcard operator. -/
def SingleWildcard : Char := '?'

/-- The any-number-of-non-separator-characters wildcard operator. -/
def AnyWildcard : Char := '*'

/-- Backslash escapes the next character. -/
def Backslash : Char := '\\'

/-- Opening bracket of a character group. -/
def GroupStart : Char := '['

/-- Closing bracket of a character group. -/
def GroupEnd : Char := ']'

/-- First character of a group that negates the group. -/
def GroupNegate : Char := '^'

/-- The range operator inside a group. -/
def RangeChar : Char := '-'

/-- Result of Go utf8.DecodeRuneInString on an empty string: the Unicode
replacement character U+FFFD with width 0. The compiler relies on this when
it looks one rune past a second star at the very end of the input. -/
def RuneError : Char := '�'

/-- Go rune zero value, used by parseGroup as the no-pending-start sentinel
and stored in tokens that carry no literal rune. -/
def nulChar : Char := '\x00'

/-- Enumeration of token kinds, mirroring tokenType in the source. -/
inductive tokenType where
  | tokenTypeLiteral
  | tokenTypeSingleRune
  | tokenTypeAnyRunes
  | tokenTypeAnyDirectories
  | tokenTypeGroup
deriving DecidableEq

/-- A closed range of runes from lo to hi, both inclusive (runeRange). -/
structure runeRange where
  lo : Char
  hi : Char
deriving DecidableEq

/-- Whether r lies in the closed range rg (runeRange.match in the source). -/
def runeRange.matches (rg : runeRange) (r : Char) : Bool :=
  decide (rg.lo ≤ r) && decide (r ≤ rg.hi)

/-- A group of runes: enumerated runes and ranges, optionally negated. -/
structure runeGroup where
  neg : Bool := false
  runes : List Char := []
  ranges : List runeRange := []
deriving DecidableEq

/-- Group matching (runeGroup.match in the source): the loops returning
not-neg on the first hit are expressed with contains and any. -/
def runeGroup.matches (g : runeGroup) (r : Char) : Bool :=
  if g.runes.contains r then !g.neg
  else if g.ranges.any (fun rg => rg.matches r) then !g.neg
  else g.neg

/-- A single token of a compiled pattern (token in the source): its type,
a literal rune (zero when unused) and a rune group (empty when unused). -/
structure token where
  t : tokenType
  r : Char
  g : runeGroup
deriving DecidableEq

/-- A compiled pattern: an ordered token sequence. -/
structure Pattern where
  tokens : List token
deriving DecidableEq

/-- Loop body of parseGroup. The Boolean records whether we are at the
first character after the opening bracket (the positional test
initialLen == le-l in the source); start is the pending range start with
the rune zero value as the no-pending sentinel; g accumulates the group.
Returns the finished group token and the unconsumed rest of the input. -/
def parseGroupLoop : Bool → Char → runeGroup → List Char →
    Except String (token × List Char)
  | _, _, _, [] => .error ("bad pattern: missing " ++ String.mk [GroupEnd])
  | first, start, g, r :: rest =>
    if first = true ∧ r = GroupNegate then
      parseGroupLoop false start { g with neg := true } rest
    else if r = GroupEnd then
      .ok (⟨tokenType.tokenTypeGroup, nulChar,
            if start ≠ nulChar then { g with runes := g.runes ++ [start] } else g⟩,
           rest)
    else if r = RangeChar then
      if start = nulChar then
        .error "bad pattern: missing start for character range"
      else
        match rest with
        | [] => .error "bad pattern: missing range end"
        | r2 :: rest2 =>
          if r2 = GroupEnd then
            .error "bad pattern: unterminated range"
          else if r2 = Backslash then
            match rest2 with
            | [] => .error "bad pattern: missing character after \\"
            | r3 :: rest3 =>
              parseGroupLoop false nulChar
                { g with ranges := g.ranges ++ [⟨start, r3⟩] } rest3
          else
            parseGroupLoop false nulChar
              { g with ranges := g.ranges ++ [⟨start, r2⟩] } rest2
    else if r = Backslash then
      match rest with
      | [] => .error "bad pattern: missing character after \\"
      | r2 :: rest2 =>
        parseGroupLoop false r2
          (if start ≠ nulChar then { g with runes := g.runes ++ [start] } else g)
          rest2
    else
      parseGroupLoop false r
        (if start ≠ nulChar then { g with runes := g.runes ++ [start] } else g)
        rest

/-- Group parser (parseGroup in the source). The argument still starts
with the opening bracket, which is skipped exactly as the source re-reads
it; the empty case cannot arise from New, which only calls parseGroup on
input whose head is the opening bracket. -/
def parseGroup : List Char → Except String (token × List Char)
  | [] => .error ("bad pattern: missing " ++ String.mk [GroupEnd])
  | _ :: rest => parseGroupLoop true nulChar {} rest

/-- Last token's type is one of the given types; helper for the adjacency
checks tokens[len(tokens)-1].t == ... in New. -/
def lastTokenTypeIn (tokens : List token) (tys : List tokenType) : Bool :=
  match tokens.getLast? with
  | some lt => tys.contains lt.t
  | none => false

/-- Main compiler loop of New. Fuel decreases by one per iteration while
the input shrinks by at least one character per iteration, so fuel
exceeding the input length never runs out. -/
def NewLoop : Nat → List Char → List token → Except String (List token)
  | 0, _, _ => .error "out of fuel"
  | _ + 1, [], tokens => .ok tokens
  | fuel + 1, r :: p, tokens =>
    if r = Separator then
      if tokens.getLast?.map token.r = some Separator then
        .error "bad pattern: unexpected //"
      else
        NewLoop fuel p (tokens ++ [⟨tokenType.tokenTypeLiteral, Separator, {}⟩])
    else if r = SingleWildcard then
      if lastTokenTypeIn tokens
          [tokenType.tokenTypeAnyRunes, tokenType.tokenTypeAnyDirectories] then
        .error "bad pattern: unexpected ?"
      else
        NewLoop fuel p (tokens ++ [⟨tokenType.tokenTypeSingleRune, nulChar, {}⟩])
    else if r = AnyWildcard then
      if lastTokenTypeIn tokens
          [tokenType.tokenTypeSingleRune, tokenType.tokenTypeAnyDirectories] then
        .error "bad pattern: unexpected ?"
      else
        match p with
        | [] => NewLoop fuel [] (tokens ++ [⟨tokenType.tokenTypeAnyRunes, nulChar, {}⟩])
        | n :: p2 =>
          if n = AnyWildcard then
            let d := p2.headD RuneError
            if d ≠ Separator then
              .error ("bad pattern: unexpected " ++ String.mk [d] ++ " after **")
            else
              NewLoop fuel p2
                (tokens ++ [⟨tokenType.tokenTypeAnyDirectories, nulChar, {}⟩])
          else
            NewLoop fuel p (tokens ++ [⟨tokenType.tokenTypeAnyRunes, nulChar, {}⟩])
    else if r = Backslash then
      match p with
      | [] => .error "bad pattern: no character given after \\"
      | r2 :: p2 =>
        NewLoop fuel p2 (tokens ++ [⟨tokenType.tokenTypeLiteral, r2, {}⟩])
    else if r = GroupStart then
      match parseGroup (r :: p) with
      | .error e => .error e
      | .ok (tk, rest) => NewLoop fuel rest (tokens ++ [tk])
    else if r = GroupEnd then
      .error "bad pattern: using ] w/o ["
    else
      NewLoop fuel p (tokens ++ [⟨tokenType.tokenTypeLiteral, r, {}⟩])

/-- Pattern compiler (New in the source). -/
def New (pat : String) : Except String Pattern :=
  (NewLoop (pat.data.length + 1) pat.data []).map Pattern.mk

/-- Scan forward past the next separator, mirroring the inner loop of the
anyDirectories case of match: returns the input after the first separator,
or none when no separator remains (the loop's return false). -/
def skipAfterSep : List Char → Option (List Char)
  | [] => none
  | c :: cs => if c = Separator then some cs else skipAfterSep cs

/-- Backtracking matcher (match in the source), with explicit fuel. Each
recursive call decreases the combined length of path and token list by at
least one, so fuel exceeding that sum never runs out. The loop of the
source that re-assigns f and t corresponds to the tail calls here. -/
def matchFuel : Nat → List Char → List token → Bool
  | 0, _, _ => false
  | _ + 1, [], [] => true
  | _ + 1, [], tk :: rest =>
    rest.isEmpty && (tk.t == tokenType.tokenTypeAnyRunes)
  | _ + 1, _ :: _, [] => false
  | fuel + 1, r :: fr, tk :: ts =>
    match tk.t with
    | tokenType.tokenTypeLiteral =>
      if tk.r = r then matchFuel fuel fr ts else false
    | tokenType.tokenTypeGroup =>
      if tk.g.matches r then matchFuel fuel fr ts else false
    | tokenType.tokenTypeSingleRune =>
      if r = Separator then false else matchFuel fuel fr ts
    | tokenType.tokenTypeAnyRunes =>
      if r = Separator then matchFuel fuel (r :: fr) ts
      else if matchFuel fuel fr (tk :: ts) then true
      else if matchFuel fuel (r :: fr) ts then true
      else matchFuel fuel fr ts
    | tokenType.tokenTypeAnyDirectories =>
      if matchFuel fuel (r :: fr) ((tk :: ts).drop 2) then true
      else
        match skipAfterSep fr with
        | none => false
        | some f2 =>
          if matchFuel fuel f2 ((tk :: ts).drop 2) then true
          else matchFuel fuel f2 (tk :: ts)

/-- The matcher on a path and a token list (match in the source). -/
def matchTokens (f : List Char) (t : List token) : Bool :=
  matchFuel (f.length + t.length + 1) f t

/-- Pattern.Match from the source: match the compiled tokens against the
path name f. -/
def Pattern.Match (pat : Pattern) (f : String) : Bool :=
  matchTokens f.data pat.tokens

section SanityChecks

/-- Convenience wrapper used only in concrete evaluations below: compile
then match, with the compile error propagated. -/
def compileAndMatch (pat f : String) : Except String Bool :=
  (New pat).map (fun p => p.Match f)

example : compileAndMatch "main.go" "main.go" = .ok true := rfl
example : compileAndMatch "foo/foo_test.go" "foo/foo_test.go" = .ok true := rfl
example : compileAndMatch "?.go" "m.go" = .ok true := rfl
example : compileAndMatch "*.go" "main.go" = .ok true := rfl
example : compileAndMatch "**/*.go" "main.go" = .ok true := rfl
example : compileAndMatch "*.go" "*.go" = .ok true := rfl
example : (New "//").isOk = false := rfl
example : (New "foo//").isOk = false := rfl
example : (New "*?.go").isOk = false := rfl
example : (New "?*.go").isOk = false := rfl
example : (New "**?.go").isOk = false := rfl
example : (New "**f").isOk = false := rfl
example : (New "[a-").isOk = false := rfl
example : (New "[a-\\").isOk = false := rfl
example : (New "[\\").isOk = false := rfl
example : compileAndMatch "**/m.go" "foo.go" = .ok false := rfl
example : compileAndMatch "**/m.go" "foo/a.go" = .ok false := rfl
example : compileAndMatch "ab[cde]" "abd" = .ok true := rfl
example : compileAndMatch "ab[+-\\-]" "ab-" = .ok true := rfl
example : compileAndMatch "ab[\\--a]" "ab-" = .ok true := rfl
example : compileAndMatch "[a-fA-F]" "F" = .ok true := rfl
example : compileAndMatch "a*" "ab/c" = .ok false := rfl
example : compileAndMatch "a*/b" "abc/b" = .ok true := rfl
example : compileAndMatch "a*/b" "a/c/b" = .ok false := rfl
example : compileAndMatch "a*b*c*d*e*/f" "axbxcxdxe/f" = .ok true := rfl
example : compileAndMatch "a*b*c*d*e*/f" "axbxcxdxe/xxx/f" = .ok false := rfl
example : compileAndMatch "a*b?c*x" "abxbbxdbxebxczzx" = .ok true := rfl
example : compileAndMatch "a*b?c*x" "abxbbxdbxebxczzy" = .ok false := rfl
example : compileAndMatch "ab[^c]" "abc" = .ok false := rfl
example : compileAndMatch "ab[^b-d]" "abc" = .ok false := rfl
example : compileAndMatch "ab[^e-g]" "abc" = .ok true := rfl
example : compileAndMatch "a\\*b" "a*b" = .ok true := rfl
example : compileAndMatch "a\\*b" "ab" = .ok false := rfl
example : compileAndMatch "a?b" "a☺b" = .ok true := rfl
example : compileAndMatch "a???b" "a☺b" = .ok false := rfl
example : compileAndMatch "a?b" "a/b" = .ok false := rfl
example : compileAndMatch "a*b" "a/b" = .ok false := rfl
example : compileAndMatch "[\\]a]" "]" = .ok true := rfl
example : compileAndMatch "[x\\-]" "-" = .ok true := rfl
example : compileAndMatch "[x\\-]" "z" = .ok false := rfl
example : (New "[]a]").isOk = false := rfl
example : (New "[-]").isOk = false := rfl
example : (New "[x-]").isOk = false := rfl
example : (New "\\").isOk = false := rfl
example : (New "[a-b-c]").isOk = false := rfl
example : (New "[").isOk = false := rfl
example : (New "[^bc").isOk = false := rfl
example : (New "a/b[").isOk = false := rfl
example : compileAndMatch "*x" "xxx" = .ok true := rfl

end SanityChecks

/-- One entry visited by fs.WalkDir: the entry's path as produced by the
lister (root-prefixed for a real walk) and whether it is a directory. The
walk visits entries depth first in lexical order; the model abstracts the
walk as the resulting visit sequence. -/
structure dirEntry where
  path : String
  isDir : Bool
deriving DecidableEq

/-- Go strings.Replace with count one on code-point lists: replace the
leftmost occurrence of old by new. An empty old matches at the start. -/
def replaceFirst (s old new : List Char) : List Char :=
  if old.isPrefixOf s then new ++ s.drop old.length
  else
    match s with
    | [] => s
    | c :: s2 => c :: replaceFirst s2 old new

/-- Path transformation GlobFS applies before matching: for a root other
than dot and the empty string, the first occurrence of root in the path is
replaced by the empty string (strings.Replace(p, root, one)); since walk
paths start with root followed by a separator, this leaves a leading
separator. For root dot or empty the path is used unchanged. -/
def replacedPath (root p : String) : String :=
  if root ≠ "." ∧ root ≠ "" then String.mk (replaceFirst p.data root.data [])
  else p

/-- Enumerator (GlobFS in the source) over the abstract walk sequence:
directories are skipped, every other entry's transformed path is matched
and collected in traversal order. The error propagation of a failing walk
is modelled at the watcher level by the Snapshot type. -/
def Pattern.GlobFS (pat : Pattern) (fsys : List dirEntry) (root : String) :
    List String :=
  fsys.foldl
    (fun results e =>
      if e.isDir then results
      else
        if pat.Match (replacedPath root e.path) then
          results ++ [replacedPath root e.path]
        else results)
    []

/-- Modelled from the spec: the path of an entry expressed relative to the
root, namely the path with the leading root segment and its separator
removed (for root dot or empty, walk paths are already relative). This is
the spec's notion used by the enumerate contract; it exists only to be
compared against what GlobFS computes. -/
def relativeToRoot (root p : String) : String :=
  if root ≠ "." ∧ root ≠ "" then String.mk (p.data.drop (root.data.length + 1))
  else p

/-- Modelled from the spec: the enumerate contract, collecting the
relative paths of exactly the matching regular files in traversal order. -/
def specGlobFS (pat : Pattern) (fsys : List dirEntry) (root : String) :
    List String :=
  (fsys.filter (fun e => !e.isDir && pat.Match (relativeToRoot root e.path))).map
    (fun e => relativeToRoot root e.path)

end pattern

namespace globwatch

/-- Type of a change event (EventType in the source). -/
inductive EventType where
  | Created
  | Modified
  | Deleted
deriving DecidableEq

/-- A single event reported by the watcher for a single file. -/
structure Event where
  type : EventType
  path : String
deriving DecidableEq

/-- Modification times are modelled as integers; Go
i.ModTime().After(got) is the strict order got < i.ModTime(). -/
abbrev ModTime := Int

/-- The watcher's view of the file system during one pass: the result of
the GlobFS enumeration from the root dot (a list of names in traversal
order, or the enumeration error) and the result of fs.Stat for each name.
Both are fixed for the duration of the pass, modelling one snapshot. -/
structure Snapshot where
  glob : Except String (List String)
  stat : String → Except String ModTime

/-- Lookup in the path-to-modtime mapping, modelled as an association
list read left to right (the Go map read got, ok := w.modtimes[name]). -/
def mapLookup : List (String × ModTime) → String → Option ModTime
  | [], _ => none
  | (k, v) :: rest, name => if k = name then some v else mapLookup rest name

/-- Write w.modtimes[name] = mt: update the existing entry in place or
append a new entry at the end. -/
def mapSet : List (String × ModTime) → String → ModTime → List (String × ModTime)
  | [], name, mt => [(name, mt)]
  | (k, v) :: rest, name, mt =>
    if k = name then (name, mt) :: rest else (k, v) :: mapSet rest name mt

/-- Body of the first loop of detectChanges for a single enumerated name:
stat the name; report a stat error and keep everything else unchanged;
insert an unknown name with a Created event; update a known name whose
modtime moved strictly forward with a Modified event; otherwise do
nothing. The accumulator carries mapping, events and reported errors. -/
def detectStep (stat : String → Except String ModTime)
    (acc : List (String × ModTime) × List Event × List String)
    (name : String) :
    List (String × ModTime) × List Event × List String :=
  match stat name with
  | .error e => (acc.1, acc.2.1, acc.2.2 ++ [e])
  | .ok mt =>
    match mapLookup acc.1 name with
    | none =>
      (mapSet acc.1 name mt, acc.2.1 ++ [⟨EventType.Created, name⟩], acc.2.2)
    | some got =>
      if got < mt then
        (mapSet acc.1 name mt, acc.2.1 ++ [⟨EventType.Modified, name⟩], acc.2.2)
      else acc

/-- Result of one change-detection pass: the new mapping, the events sent
to the event channel in order, and the errors sent to the error channel. -/
structure TickResult where
  modtimes : List (String × ModTime)
  events : List Event
  errs : List String
deriving DecidableEq

/-- One tick (detectChanges in the source). A failing enumeration reports
one wrapped error and leaves everything untouched. Otherwise the first
loop processes every enumerated name in order; the second loop removes
every mapping entry whose path was not enumerated (foundNames holds all
enumerated names once the first loop is done) and emits one Deleted event
per removed entry, after all Created and Modified events. -/
def detectChanges (snap : Snapshot) (m : List (String × ModTime)) : TickResult :=
  match snap.glob with
  | .error e => ⟨m, [], ["failed to detect changes: " ++ e]⟩
  | .ok names =>
    let r := names.foldl (detectStep snap.stat) (m, [], [])
    ⟨r.1.filter (fun kv => names.contains kv.1),
     r.2.1 ++
       (r.1.filter (fun kv => !names.contains kv.1)).map
         (fun kv => ⟨EventType.Deleted, kv.1⟩),
     r.2.2⟩

/-- Initial seeding (determineInitialState in the source): a failing
enumeration is wrapped and returned, aborting startup; otherwise every
enumerated name is statted, stat errors are pushed onto the error channel
while the name is skipped, and surviving names seed the mapping. The
returned pair is the seeded mapping and the channel-reported errors. -/
def determineInitialState (snap : Snapshot) :
    Except String (List (String × ModTime) × List String) :=
  match snap.glob with
  | .error e => .error ("failed to detect watcher: " ++ e)
  | .ok names =>
    .ok (names.foldl
      (fun acc name =>
        match snap.stat name with
        | .error e => (acc.1, acc.2 ++ [e])
        | .ok mt => (mapSet acc.1 name mt, acc.2))
      ([], []))

/-- Synchronous part of StartContext: it runs determineInitialState and
returns its error to the caller, or the seeded state on success (the
asynchronous ticking loop it then spawns is outside this model). -/
def StartContext (snap : Snapshot) :
    Except String (List (String × ModTime) × List String) :=
  determineInitialState snap

/-- Writing a key always makes it readable with the written value. -/
theorem mapLookup_mapSet_self (m : List (String × ModTime)) (name : String)
    (mt : ModTime) : mapLookup (mapSet m name mt) name = some mt := by
  induction m with
  | nil => simp [mapSet, mapLookup]
  | cons kv rest ih =>
    obtain ⟨k, v⟩ := kv
    by_cases h : k = name
    · simp [mapSet, mapLookup, h]
    · simp [mapSet, mapLookup, h, ih]

/-- Writing a key leaves every other key unchanged. -/
theorem mapLookup_mapSet_other (m : List (String × ModTime)) (name : String)
    (mt : ModTime) (n : String) (h : n ≠ name) :
    mapLookup (mapSet m name mt) n = mapLookup m n := by
  induction m with
  | nil => simp [mapSet, mapLookup, Ne.symm h]
  | cons kv rest ih =>
    obtain ⟨k, v⟩ := kv
    by_cases hk : k = name
    · subst hk
      simp [mapSet, mapLookup, Ne.symm h]
    · simp [mapSet, mapLookup, hk, ih]

/-- The mapping after one detectStep is either untouched or a single
write at the processed name with its statted modtime. -/
theorem detectStep_fst (stat : String → Except String ModTime)
    (acc : List (String × ModTime) × List Event × List String) (name : String) :
    (detectStep stat acc name).1 = acc.1
    ∨ ∃ mt, stat name = .ok mt
        ∧ (detectStep stat acc name).1 = mapSet acc.1 name mt := by
  unfold detectStep
  cases hstat : stat name with
  | error e => exact Or.inl rfl
  | ok mt =>
    cases hlook : mapLookup acc.1 name with
    | none => exact Or.inr ⟨mt, rfl, rfl⟩
    | some got =>
      by_cases hg : got < mt
      · exact Or.inr ⟨mt, rfl, by simp [hg]⟩
      · exact Or.inl (by simp [hg])

/-- After processing a name whose stat succeeds, the mapping holds a
value for it that is not earlier than the statted modtime. -/
theorem detectStep_establishes (stat : String → Except String ModTime)
    (acc : List (String × ModTime) × List Event × List String) (n : String)
    (mt : ModTime) (hs : stat n = .ok mt) :
    ∃ v, mapLookup (detectStep stat acc n).1 n = some v ∧ ¬ v < mt := by
  unfold detectStep
  simp only [hs]
  cases hlook : mapLookup acc.1 n with
  | none =>
    simp only [hlook]
    exact ⟨mt, mapLookup_mapSet_self acc.1 n mt, lt_irrefl mt⟩
  | some got =>
    simp only [hlook]
    by_cases hg : got < mt
    · simp only [if_pos hg]
      exact ⟨mt, mapLookup_mapSet_self acc.1 n mt, lt_irrefl mt⟩
    · simp only [if_neg hg]
      exact ⟨got, hlook, hg⟩

/-- Once a name whose stat succeeds is recorded with a value not earlier
than its statted modtime, any later step preserves that. -/
theorem detectStep_settled_pres (stat : String → Except String ModTime)
    (acc : List (String × ModTime) × List Event × List String) (name n : String)
    (mt : ModTime) (hs : stat n = .ok mt)
    (h : ∃ v, mapLookup acc.1 n = some v ∧ ¬ v < mt) :
    ∃ v, mapLookup (detectStep stat acc name).1 n = some v ∧ ¬ v < mt := by
  obtain ⟨v, hv, hlt⟩ := h
  by_cases hn : n = name
  · subst hn
    rcases detectStep_fst stat acc n with heq | ⟨mt2, hstat2, heq⟩
    · exact ⟨v, heq ▸ hv, hlt⟩
    · have h3 := hstat2.symm.trans hs
      injection h3 with hmt
      subst hmt
      rw [heq]
      exact ⟨mt2, mapLookup_mapSet_self acc.1 n mt2, lt_irrefl mt2⟩
  · rcases detectStep_fst stat acc name with heq | ⟨mt2, hstat2, heq⟩
    · exact ⟨v, heq ▸ hv, hlt⟩
    · rw [heq, mapLookup_mapSet_other acc.1 name mt2 n hn]
      exact ⟨v, hv, hlt⟩

/-- After the whole first loop, every enumerated name whose stat succeeds
is recorded with a value not earlier than its statted modtime. -/
theorem foldl_detectStep_settled (stat : String → Except String ModTime)
    (n : String) (mt : ModTime) (hs : stat n = .ok mt) :
    ∀ (names : List String) (acc : List (String × ModTime) × List Event × List String),
      (n ∈ names ∨ ∃ v, mapLookup acc.1 n = some v ∧ ¬ v < mt) →
      ∃ v, mapLookup (names.foldl (detectStep stat) acc).1 n = some v ∧ ¬ v < mt := by
  intro names
  induction names with
  | nil =>
    intro acc h
    cases h with
    | inl h2 => simp at h2
    | inr h2 => simpa using h2
  | cons name rest ih =>
    intro acc h
    rw [List.foldl_cons]
    apply ih
    cases h with
    | inl hmem =>
      rcases List.mem_cons.mp hmem with heq | hmem2
      · subst heq
        exact Or.inr (detectStep_establishes stat acc n mt hs)
      · exact Or.inl hmem2
    | inr hset =>
      exact Or.inr (detectStep_settled_pres stat acc name n mt hs hset)

/-- A step over a name that is already recorded with a value not earlier
than its statted modtime changes neither the mapping nor the events. -/
theorem detectStep_noop (stat : String → Except String ModTime)
    (acc : List (String × ModTime) × List Event × List String) (name : String)
    (h : ∀ mt, stat name = .ok mt →
      ∃ v, mapLookup acc.1 name = some v ∧ ¬ v < mt) :
    (detectStep stat acc name).1 = acc.1
    ∧ (detectStep stat acc name).2.1 = acc.2.1 := by
  unfold detectStep
  cases hstat : stat name with
  | error e => exact ⟨rfl, rfl⟩
  | ok mt =>
    obtain ⟨v, hv, hlt⟩ := h mt hstat
    simp [hv, hlt]

/-- The whole first loop over names that are all already settled changes
neither the mapping nor the events. -/
theorem foldl_detectStep_noop (stat : String → Except String ModTime) :
    ∀ (names : List String) (acc : List (String × ModTime) × List Event × List String),
      (∀ n mt, n ∈ names → stat n = .ok mt →
        ∃ v, mapLookup acc.1 n = some v ∧ ¬ v < mt) →
      (names.foldl (detectStep stat) acc).1 = acc.1
      ∧ (names.foldl (detectStep stat) acc).2.1 = acc.2.1 := by
  intro names
  induction names with
  | nil => intro acc h; exact ⟨rfl, rfl⟩
  | cons name rest ih =>
    intro acc h
    rw [List.foldl_cons]
    have hstep := detectStep_noop stat acc name
      (fun mt hmt => h name mt (List.mem_cons_self name rest) hmt)
    have hrest := ih (detectStep stat acc name)
      (by
        intro n mt hn hmt
        rw [hstep.1]
        exact h n mt (List.mem_cons_of_mem name hn) hmt)
    exact ⟨hrest.1.trans hstep.1, hrest.2.trans hstep.2⟩

/-- Restricting the mapping to enumerated keys does not change lookups of
enumerated keys. -/
theorem mapLookup_filter_contains (names : List String) :
    ∀ (m : List (String × ModTime)) (n : String), names.contains n = true →
      mapLookup (m.filter (fun kv => names.contains kv.1)) n = mapLookup m n := by
  intro m
  induction m with
  | nil => intro n h; rfl
  | cons kv rest ih =>
    intro n h
    obtain ⟨k, v⟩ := kv
    have hm := ih n h
    set P := fun (kv : String × ModTime) => names.contains kv.1 with hPdef
    by_cases hck : names.contains k
    · have hpos : P (k, v) = true := hck
      rw [List.filter_cons_of_pos hpos]
      by_cases hk : k = n
      · subst hk
        simp [mapLookup]
      · simp only [mapLookup, if_neg hk]
        exact hm
    · have hneg2 : ¬ P (k, v) = true := hck
      rw [List.filter_cons_of_neg hneg2]
      by_cases hk : k = n
      · subst hk
        exact absurd h hck
      · have hrhs : mapLookup ((k, v) :: rest) n = mapLookup rest n := by
          simp only [mapLookup, if_neg hk]
        rw [hrhs]
        exact hm

/-- A write at a key rejected by the filter does not change the filtered
mapping. -/
theorem mapSet_filter_false (name : String) (mt : ModTime)
    (P : String × ModTime → Bool) (hP : ∀ v, P (name, v) = false) :
    ∀ m : List (String × ModTime), (mapSet m name mt).filter P = m.filter P := by
  intro m
  induction m with
  | nil => simp [mapSet, hP mt]
  | cons kv rest ih =>
    obtain ⟨k, v⟩ := kv
    by_cases hk : k = name
    · subst hk
      simp [mapSet, List.filter_cons, hP mt, hP v]
    · simp [mapSet, hk, List.filter_cons, ih]

/-- A step over an enumerated name does not change the part of the
mapping whose keys were not enumerated. -/
theorem detectStep_fst_filter (stat : String → Except String ModTime)
    (acc : List (String × ModTime) × List Event × List String) (name : String)
    (namesAll : List String) (hmem : namesAll.contains name = true) :
    (detectStep stat acc name).1.filter (fun kv => !namesAll.contains kv.1)
      = acc.1.filter (fun kv => !namesAll.contains kv.1) := by
  have hmemname : name ∈ namesAll := by simpa using hmem
  rcases detectStep_fst stat acc name with heq | ⟨mt, _, heq⟩
  · rw [heq]
  · rw [heq, mapSet_filter_false name mt _ (by intro v; simp [hmemname]) acc.1]

/-- The whole first loop does not change the part of the mapping whose
keys were not enumerated. -/
theorem foldl_detectStep_fst_filter (stat : String → Except String ModTime)
    (namesAll : List String) :
    ∀ (names : List String) (acc : List (String × ModTime) × List Event × List String),
      (∀ n ∈ names, namesAll.contains n = true) →
      (names.foldl (detectStep stat) acc).1.filter (fun kv => !namesAll.contains kv.1)
        = acc.1.filter (fun kv => !namesAll.contains kv.1) := by
  intro names
  induction names with
  | nil => intro acc h; rfl
  | cons name rest ih =>
    intro acc h
    rw [List.foldl_cons, ih _ (fun n hn => h n (List.mem_cons_of_mem name hn)),
      detectStep_fst_filter stat acc name namesAll (h name (List.mem_cons_self name rest))]

/-- Each step appends only Created or Modified events. -/
theorem detectStep_events_append (stat : String → Except String ModTime)
    (acc : List (String × ModTime) × List Event × List String) (name : String) :
    ∃ evs, (detectStep stat acc name).2.1 = acc.2.1 ++ evs
      ∧ ∀ ev ∈ evs, ev.type = EventType.Created ∨ ev.type = EventType.Modified := by
  unfold detectStep
  cases hstat : stat name with
  | error e => exact ⟨[], by simp, by simp⟩
  | ok mt =>
    cases hlook : mapLookup acc.1 name with
    | none =>
      refine ⟨[⟨EventType.Created, name⟩], rfl, ?_⟩
      intro ev hev
      rw [List.mem_singleton] at hev
      subst hev
      exact Or.inl rfl
    | some got =>
      by_cases hg : got < mt
      · refine ⟨[⟨EventType.Modified, name⟩], by simp [hg], ?_⟩
        intro ev hev
        rw [List.mem_singleton] at hev
        subst hev
        exact Or.inr rfl
      · exact ⟨[], by simp [hg], by simp⟩

/-- The whole first loop appends only Created or Modified events. -/
theorem foldl_detectStep_events_append (stat : String → Except String ModTime) :
    ∀ (names : List String) (acc : List (String × ModTime) × List Event × List String),
      ∃ evs, (names.foldl (detectStep stat) acc).2.1 = acc.2.1 ++ evs
        ∧ ∀ ev ∈ evs, ev.type = EventType.Created ∨ ev.type = EventType.Modified := by
  intro names
  induction names with
  | nil => intro acc; exact ⟨[], by simp, by simp⟩
  | cons name rest ih =>
    intro acc
    obtain ⟨evs1, h1, hp1⟩ := detectStep_events_append stat acc name
    obtain ⟨evs2, h2, hp2⟩ := ih (detectStep stat acc name)
    refine ⟨evs1 ++ evs2, ?_, ?_⟩
    · rw [List.foldl_cons, h2, h1, List.append_assoc]
    · intro ev hev
      rcases List.mem_append.mp hev with h | h
      · exact hp1 ev h
      · exact hp2 ev h

/-- A key appearing in a mapping with pairwise distinct keys is held by
exactly one entry. -/
theorem filter_key_eq_singleton (p : String) :
    ∀ m : List (String × ModTime), (m.map Prod.fst).Nodup → p ∈ m.map Prod.fst →
      ∃ v, m.filter (fun kv => kv.1 = p) = [(p, v)] := by
  intro m
  induction m with
  | nil => intro _ hp; simp at hp
  | cons kv rest ih =>
    intro hnd hp
    obtain ⟨k, v⟩ := kv
    rw [List.map_cons] at hnd hp
    by_cases hk : k = p
    · subst hk
      have hnotin : k ∉ rest.map Prod.fst := (List.nodup_cons.mp hnd).1
      have hempty : rest.filter (fun kv => kv.1 = k) = [] := by
        rw [List.filter_eq_nil_iff]
        intro kv2 hkv2
        simp only [decide_eq_true_eq]
        intro hcontra
        exact hnotin (hcontra ▸ List.mem_map_of_mem Prod.fst hkv2)
      refine ⟨v, ?_⟩
      rw [List.filter_cons]
      simp [hempty]
    · rcases List.mem_cons.mp hp with heq | hmem
      · exact absurd heq.symm hk
      · obtain ⟨v2, hv2⟩ := ih (List.nodup_cons.mp hnd).2 hmem
        refine ⟨v2, ?_⟩
        rw [List.filter_cons]
        simp [hk, hv2]

/-- Membership gives contains for string lists. -/
theorem contains_of_mem (names : List String) (n : String) (hn : n ∈ names) :
    names.contains n = true := by
  simpa using hn

end globwatch

open pattern globwatch

/-- C1: when the matcher exhausts the path with tokens remaining, the
match succeeds if and only if exactly one token remains and it is the
AnyWildcard (anyRunes) token; when the matcher exhausts the tokens with
path characters remaining, the match fails. -/
theorem c1_match_exhaustion (f : List Char) (ts : List token) :
    (ts ≠ [] → (matchTokens [] ts = true ↔
      ∃ tk, ts = [tk] ∧ tk.t = tokenType.tokenTypeAnyRunes))
    ∧ (f ≠ [] → matchTokens f [] = false) := by
  constructor
  · intro hts
    cases ts with
    | nil => exact absurd rfl hts
    | cons tk rest =>
      cases rest with
      | nil =>
        constructor
        · intro h
          have h3 : (List.isEmpty ([] : List token)
              && (tk.t == tokenType.tokenTypeAnyRunes)) = true := h
          have h2 : (tk.t == tokenType.tokenTypeAnyRunes) = true := by simpa using h3
          exact ⟨tk, rfl, eq_of_beq h2⟩
        · rintro ⟨tk2, heq, hty⟩
          injection heq with h1 h2
          subst h1
          show (List.isEmpty ([] : List token)
              && (tk.t == tokenType.tokenTypeAnyRunes)) = true
          simp [hty]
      | cons tk2 rest2 =>
        constructor
        · intro h
          have h3 : (List.isEmpty (tk2 :: rest2)
              && (tk.t == tokenType.tokenTypeAnyRunes)) = true := h
          simp at h3
        · rintro ⟨tk3, heq, hty⟩
          injection heq with h1 h2
          exact List.noConfusion h2
  · intro hf
    cases f with
    | nil => exact absurd rfl hf
    | cons c cs => rfl

/-- C1 concrete application: a lone AnyWildcard token matches the
exhausted path, and leftover path with no tokens fails. -/
theorem c1_match_exhaustion_app :
    matchTokens [] [⟨tokenType.tokenTypeAnyRunes, nulChar, {}⟩] = true
    ∧ matchTokens [Separator] [] = false := by
  have h := c1_match_exhaustion [Separator]
    [⟨tokenType.tokenTypeAnyRunes, nulChar, {}⟩]
  exact ⟨(h.1 (by simp)).mpr ⟨_, rfl, rfl⟩, h.2 (by simp)⟩

/-- C2: the code rejects a pattern that ends in a star pair, because it
decodes the rune after the second star even at end of input, obtains the
replacement rune U+FFFD with the empty remainder, and fails the
comparison against the separator; a star pair followed by a separator
still collapses into one AnyDirectories token. The package documentation
grammar (pattern = term, slash term, repeated; term = double star) and
the spec both allow a pattern to end in the double star, so this is a
divergence of the code from its own documentation. -/
theorem c2_trailing_doublestar_rejected :
    New "**" = Except.error "bad pattern: unexpected � after **"
    ∧ New "foo/**" = Except.error "bad pattern: unexpected � after **"
    ∧ New "**/m" = Except.ok ⟨[⟨tokenType.tokenTypeAnyDirectories, nulChar, {}⟩,
        ⟨tokenType.tokenTypeLiteral, Separator, {}⟩,
        ⟨tokenType.tokenTypeLiteral, 'm', {}⟩]⟩ :=
  ⟨rfl, rfl, rfl⟩

/-- C7: the recursive wildcard matches zero or more whole directory
segments: pattern double-star slash m.go accepts m.go, a/m.go and
a/b/m.go and rejects m.go.bak. -/
theorem c7_any_directories_segments :
    (New "**/m.go").map (fun p =>
      (p.Match "m.go", p.Match "a/m.go", p.Match "a/b/m.go", p.Match "m.go.bak"))
    = .ok (true, true, true, false) := rfl

/-- C10: compiling the empty pattern succeeds with an empty token
sequence, and the empty token sequence matches exactly the empty path. -/
theorem c10_empty_pattern :
    New "" = Except.ok ⟨[]⟩
    ∧ ∀ f : String, ((Pattern.mk []).Match f = true ↔ f = "") := by
  refine ⟨rfl, fun f => ?_⟩
  obtain ⟨data⟩ := f
  cases data with
  | nil => exact ⟨fun _ => rfl, fun _ => rfl⟩
  | cons c cs =>
    constructor
    · intro h
      exact Bool.noConfusion (h : false = true)
    · intro h
      exact List.noConfusion (congrArg String.data h : c :: cs = ([] : List Char))

/-- C9: a Group token can match the separator: a non-negated group with a
range spanning the separator accepts it, a negated group that excludes
the separator nowhere accepts it, the concrete patterns a[.-0]b and
a[^b]c match a/b and a/c respectively, while the single and any
wildcards never cross the separator on the same paths. -/
theorem c9_group_matches_separator :
    (∀ g : runeGroup, g.neg = false →
        (∃ rg, rg ∈ g.ranges ∧ rg.lo ≤ Separator ∧ Separator ≤ rg.hi) →
        g.matches Separator = true)
    ∧ (∀ g : runeGroup, g.neg = true → g.runes.contains Separator = false →
        (∀ rg, rg ∈ g.ranges → rg.matches Separator = false) →
        g.matches Separator = true)
    ∧ compileAndMatch "a[.-0]b" "a/b" = .ok true
    ∧ compileAndMatch "a[^b]c" "a/c" = .ok true
    ∧ compileAndMatch "a?b" "a/b" = .ok false
    ∧ compileAndMatch "a*b" "a/b" = .ok false := by
  refine ⟨?_, ?_, rfl, rfl, rfl, rfl⟩
  · intro g hneg ⟨rg, hmem, h1, h2⟩
    have hrg : rg.matches Separator = true := by
      simp [runeRange.matches, h1, h2]
    cases hc : g.runes.contains Separator with
    | true =>
      unfold runeGroup.matches
      rw [hc, hneg]
      simp
    | false =>
      have hany : g.ranges.any (fun r => r.matches Separator) = true :=
        List.any_eq_true.mpr ⟨rg, hmem, hrg⟩
      unfold runeGroup.matches
      rw [hc, hany, hneg]
      simp
  · intro g hneg hc hr
    have hany : g.ranges.any (fun r => r.matches Separator) = false := by
      rw [List.any_eq_false]
      intro rg hmem
      simp [hr rg hmem]
    unfold runeGroup.matches
    rw [hc, hany, hneg]
    simp

/-- C9 concrete application: the range from dot to zero spans the
separator in a non-negated group, and a negated group listing only the
letter b accepts the separator. -/
theorem c9_group_matches_separator_app :
    runeGroup.matches ⟨false, [], [⟨'.', '0'⟩]⟩ Separator = true
    ∧ runeGroup.matches ⟨true, ['b'], []⟩ Separator = true := by
  have h := c9_group_matches_separator
  refine ⟨h.1 ⟨false, [], [⟨'.', '0'⟩]⟩ rfl ⟨⟨'.', '0'⟩, by simp, by decide, by decide⟩,
          h.2.1 ⟨true, ['b'], []⟩ rfl (by decide) ?_⟩
  intro rg hmem
  simp at hmem

/-- C3 counterexample: for the root sub, the walk path sub/a.go of a
regular file has relative path a.go, which matches the pattern a.go, so
the claim predicts the result list a.go; the code instead replaces the
first occurrence of the root by the empty string, matches the leftover
/a.go, and returns nothing. -/
theorem c3_globfs_counterexample :
    (New "a.go").map (fun p =>
      (specGlobFS p [⟨"sub", true⟩, ⟨"sub/a.go", false⟩] "sub",
       p.GlobFS [⟨"sub", true⟩, ⟨"sub/a.go", false⟩] "sub"))
    = .ok (["a.go"], []) := rfl

/-- C3 amended: GlobFS collects, in traversal order, the paths of exactly
the matching non-directory entries after replacing the first occurrence
of the root by the empty string (which leaves a leading separator for a
real walk, rather than the relative path); for the roots dot and empty
the path is used as produced by the lister, and there the claim holds as
stated: GlobFS agrees with the relative-path contract of the spec. -/
theorem c3_globfs_characterization :
    (∀ (pat : Pattern) (fsys : List dirEntry) (root : String),
      pat.GlobFS fsys root =
        (fsys.filter (fun e => !e.isDir && pat.Match (replacedPath root e.path))).map
          (fun e => replacedPath root e.path))
    ∧ (∀ (pat : Pattern) (fsys : List dirEntry),
        pat.GlobFS fsys "." = specGlobFS pat fsys "."
        ∧ pat.GlobFS fsys "" = specGlobFS pat fsys "") := by
  have hmain : ∀ (pat : Pattern) (fsys : List dirEntry) (root : String),
      pat.GlobFS fsys root =
        (fsys.filter (fun e => !e.isDir && pat.Match (replacedPath root e.path))).map
          (fun e => replacedPath root e.path) := by
    intro pat fsys root
    unfold Pattern.GlobFS
    suffices h : ∀ (l : List dirEntry) (acc : List String),
        l.foldl
          (fun results e =>
            if e.isDir then results
            else
              if pat.Match (replacedPath root e.path) then
                results ++ [replacedPath root e.path]
              else results)
          acc
        = acc ++
          (l.filter (fun e => !e.isDir && pat.Match (replacedPath root e.path))).map
            (fun e => replacedPath root e.path) by
      simpa using h fsys []
    intro l
    induction l with
    | nil => intro acc; simp
    | cons e l ih =>
      intro acc
      by_cases hd : e.isDir
      · simp [hd, ih]
      · by_cases hm : pat.Match (replacedPath root e.path)
        · simp [hd, hm, ih]
        · simp [hd, hm, ih]
  refine ⟨hmain, fun pat fsys => ⟨?_, ?_⟩⟩
  · rw [hmain]
    unfold specGlobFS
    have : ∀ p, replacedPath "." p = p := by
      intro p; simp [replacedPath]
    have h2 : ∀ p, relativeToRoot "." p = p := by
      intro p; simp [relativeToRoot]
    simp only [this, h2]
  · rw [hmain]
    unfold specGlobFS
    have : ∀ p, replacedPath "" p = p := by
      intro p; simp [replacedPath]
    have h2 : ∀ p, relativeToRoot "" p = p := by
      intro p; simp [relativeToRoot]
    simp only [this, h2]

/-- C4 counterexample: a snapshot whose enumeration yields one name whose
stat fails. The claim predicts a fatal startup error returned from
StartContext; the code pushes the stat error onto the error channel,
skips the file, and StartContext returns success with an empty seeded
mapping. -/
theorem c4_stat_error_counterexample :
    (Snapshot.mk (.ok ["a"]) (fun _ => .error "boom")).stat "a" = .error "boom"
    ∧ StartContext ⟨.ok ["a"], fun _ => .error "boom"⟩ = .ok ([], ["boom"]) :=
  ⟨rfl, rfl⟩

/-- C4 amended: an enumeration error during initial state determination
is fatal to watcher startup and is returned synchronously, wrapped, to
the caller of Start and StartContext; a per-file stat failure while
seeding the path-to-modtime mapping is not fatal: it is reported on the
error channel, the file is skipped, and startup succeeds. -/
theorem c4_initial_state_errors (snap : Snapshot) :
    (∀ e, snap.glob = .error e →
      StartContext snap = .error ("failed to detect watcher: " ++ e))
    ∧ (∀ names, snap.glob = .ok names → ∃ st, StartContext snap = .ok st) := by
  constructor
  · intro e h
    unfold StartContext determineInitialState
    rw [h]
  · intro names h
    unfold StartContext determineInitialState
    rw [h]
    exact ⟨_, rfl⟩

/-- C4 amended, applied: an enumeration error is returned and a snapshot
with a successful enumeration starts up. -/
theorem c4_initial_state_errors_app :
    StartContext ⟨.error "io", fun _ => .ok 0⟩
      = .error ("failed to detect watcher: " ++ "io")
    ∧ ∃ st, StartContext ⟨.ok ["a"], fun _ => .ok 0⟩ = .ok st :=
  ⟨(c4_initial_state_errors ⟨.error "io", fun _ => .ok 0⟩).1 "io" rfl,
   (c4_initial_state_errors ⟨.ok ["a"], fun _ => .ok 0⟩).2 ["a"] rfl⟩

/-- C6: when the enumeration of a tick fails, exactly one wrapped error
is reported for that tick, no events are emitted, and the mapping is
left completely unchanged. -/
theorem c6_enumeration_error_skips_tick (snap : Snapshot)
    (m : List (String × ModTime)) (e : String) (h : snap.glob = .error e) :
    detectChanges snap m = ⟨m, [], ["failed to detect changes: " ++ e]⟩ := by
  unfold detectChanges
  rw [h]

/-- C6 applied at a concrete failing snapshot and nonempty mapping. -/
theorem c6_enumeration_error_skips_tick_app :
    detectChanges ⟨.error "walkfail", fun _ => .ok 0⟩ [("x", 1)]
      = ⟨[("x", 1)], [], ["failed to detect changes: " ++ "walkfail"]⟩ :=
  c6_enumeration_error_skips_tick ⟨.error "walkfail", fun _ => .ok 0⟩
    [("x", 1)] "walkfail" rfl

/-- C5: in the event sequence of one tick every Created and Modified
event precedes every Deleted event, and when the mapping has pairwise
distinct keys, each path removed during the tick (a mapped path that the
enumeration no longer yields) yields exactly one Deleted event. -/
theorem c5_deleted_events_last (snap : Snapshot) (m : List (String × ModTime))
    (names : List String) (hg : snap.glob = .ok names)
    (hnd : (m.map Prod.fst).Nodup) :
    ∃ pre post,
      (detectChanges snap m).events = pre ++ post
      ∧ (∀ ev ∈ pre, ev.type = EventType.Created ∨ ev.type = EventType.Modified)
      ∧ (∀ ev ∈ post, ev.type = EventType.Deleted)
      ∧ ∀ p, p ∈ m.map Prod.fst → names.contains p = false →
          (post.filter (fun ev => ev.path = p)).length = 1 := by
  have hdc : (detectChanges snap m).events
      = (names.foldl (detectStep snap.stat) (m, [], [])).2.1
        ++ ((names.foldl (detectStep snap.stat) (m, [], [])).1.filter
              (fun kv => !names.contains kv.1)).map
            (fun kv => ⟨EventType.Deleted, kv.1⟩) := by
    unfold detectChanges
    rw [hg]
  obtain ⟨evs, hevs, hCM⟩ :=
    foldl_detectStep_events_append snap.stat names (m, [], [])
  have hfilter : (names.foldl (detectStep snap.stat) (m, [], [])).1.filter
        (fun kv => !names.contains kv.1)
      = m.filter (fun kv => !names.contains kv.1) :=
    foldl_detectStep_fst_filter snap.stat names names (m, [], [])
      (fun n hn => contains_of_mem names n hn)
  refine ⟨(names.foldl (detectStep snap.stat) (m, [], [])).2.1,
    (m.filter (fun kv => !names.contains kv.1)).map
      (fun kv => ⟨EventType.Deleted, kv.1⟩),
    by rw [hdc, hfilter], ?_, ?_, ?_⟩
  · intro ev hev
    rw [hevs] at hev
    have : ev ∈ evs := by simpa using hev
    exact hCM ev this
  · intro ev hev
    obtain ⟨kv, hkv, heq⟩ := List.mem_map.mp hev
    rw [← heq]
  · intro p hp hcontains
    have hQ : m.filter (fun kv => decide (kv.1 = p) && !names.contains kv.1)
        = m.filter (fun kv => kv.1 = p) := by
      apply List.filter_congr
      intro kv _
      by_cases hkp : kv.1 = p
      · rw [hkp, hcontains]
        simp
      · simp [hkp]
    obtain ⟨v, hv⟩ := filter_key_eq_singleton p m hnd hp
    rw [List.filter_map, List.length_map]
    have hcomp : ((m.filter (fun kv => !names.contains kv.1)).filter
          ((fun ev => decide (ev.path = p)) ∘ (fun kv => Event.mk EventType.Deleted kv.1)))
        = m.filter (fun kv => kv.1 = p) := by
      rw [List.filter_filter]
      rw [show (fun (a : String × ModTime) =>
          ((fun ev => decide (ev.path = p)) ∘
            (fun kv : String × ModTime => Event.mk EventType.Deleted kv.1)) a
            && !names.contains a.1)
          = (fun kv : String × ModTime =>
              decide (kv.1 = p) && !names.contains kv.1) from rfl]
      exact hQ
    rw [hcomp, hv]
    rfl

/-- C5 applied: one tick over a snapshot that enumerates a new file while
a mapped file disappeared splits into Created and Modified events
followed by Deleted events, with one Deleted event for the vanished
path. -/
theorem c5_deleted_events_last_app :
    ∃ pre post,
      (detectChanges ⟨.ok ["a"], fun _ => .ok 5⟩ [("b", 3)]).events = pre ++ post
      ∧ (∀ ev ∈ pre, ev.type = EventType.Created ∨ ev.type = EventType.Modified)
      ∧ (∀ ev ∈ post, ev.type = EventType.Deleted)
      ∧ ∀ p, p ∈ [("b", (3 : ModTime))].map Prod.fst →
          (["a"] : List String).contains p = false →
          (post.filter (fun ev => ev.path = p)).length = 1 :=
  c5_deleted_events_last ⟨.ok ["a"], fun _ => .ok 5⟩ [("b", 3)] ["a"] rfl (by simp)

/-- C8: ticking is idempotent on an unchanged file system: a second
change-detection pass over the identical snapshot emits zero events and
leaves the path-to-modtime mapping exactly as the first pass left it. -/
theorem c8_tick_idempotent (snap : Snapshot) (m : List (String × ModTime)) :
    (detectChanges snap (detectChanges snap m).modtimes).events = []
    ∧ (detectChanges snap (detectChanges snap m).modtimes).modtimes
        = (detectChanges snap m).modtimes := by
  cases hg : snap.glob with
  | error e =>
    constructor <;> simp [detectChanges, hg]
  | ok names =>
    have hdc : ∀ mm : List (String × ModTime), detectChanges snap mm = ⟨
        (names.foldl (detectStep snap.stat) (mm, [], [])).1.filter
          (fun kv => names.contains kv.1),
        (names.foldl (detectStep snap.stat) (mm, [], [])).2.1 ++
          ((names.foldl (detectStep snap.stat) (mm, [], [])).1.filter
            (fun kv => !names.contains kv.1)).map
            (fun kv => ⟨EventType.Deleted, kv.1⟩),
        (names.foldl (detectStep snap.stat) (mm, [], [])).2.2⟩ := by
      intro mm
      unfold detectChanges
      rw [hg]
    have hm2 : (detectChanges snap m).modtimes
        = (names.foldl (detectStep snap.stat) (m, [], [])).1.filter
            (fun kv => names.contains kv.1) := by
      rw [hdc m]
    set m2 := (names.foldl (detectStep snap.stat) (m, [], [])).1.filter
        (fun kv => names.contains kv.1) with hm2def
    have hsettled : ∀ n mt, n ∈ names → snap.stat n = .ok mt →
        ∃ v, mapLookup m2 n = some v ∧ ¬ v < mt := by
      intro n mt hn hs
      rw [hm2def, mapLookup_filter_contains names _ n (contains_of_mem names n hn)]
      exact foldl_detectStep_settled snap.stat n mt hs names (m, [], []) (Or.inl hn)
    have hnoop := foldl_detectStep_noop snap.stat names (m2, [], [])
      (by intro n mt hn hs; exact hsettled n mt hn hs)
    have hf : (names.foldl (detectStep snap.stat) (m2, [], [])).1 = m2 := hnoop.1
    have he : (names.foldl (detectStep snap.stat) (m2, [], [])).2.1
        = ([] : List Event) := hnoop.2
    have hkeys : ∀ kv ∈ m2, names.contains kv.1 = true := by
      intro kv hkv
      rw [hm2def] at hkv
      have h2 := (List.mem_filter.mp hkv).2
      simpa using h2
    have hnil : m2.filter (fun kv => !names.contains kv.1) = [] := by
      rw [List.filter_eq_nil_iff]
      intro kv hkv
      have h3 : kv.1 ∈ names := by simpa using hkeys kv hkv
      simp [h3]
    constructor
    · rw [hm2, hdc m2]
      show (names.foldl (detectStep snap.stat) (m2, [], [])).2.1 ++
          ((names.foldl (detectStep snap.stat) (m2, [], [])).1.filter
            (fun kv => !names.contains kv.1)).map
            (fun kv => Event.mk EventType.Deleted kv.1) = []
      rw [he, hf, hnil]
      simp
    · rw [hm2, hdc m2]
      show (names.foldl (detectStep snap.stat) (m2, [], [])).1.filter
          (fun kv => names.contains kv.1) = m2
      rw [hf]
      exact List.filter_eq_self.mpr hkeys
